import Mathlib

/-!
Verification of the core logic of a Japanese-language practice web app:
sentence segmentation (`parseSentence`), whitespace-insensitive answer
validation (`checkAnswers`), the chat-history/advance state transition,
the grammar-analysis fallback, and little-endian 16-bit PCM audio decoding
(`decodeAudioData`).  Strings are modelled as `List Char`; the JavaScript
regular expressions involved only use a single-character class, so matching
and splitting are modelled character by character.
-/

namespace Nihongo

/-- The fixed punctuation character class of the regexes in `parseSentence`:
`[。、？?！!]`. -/
def punctChars : List Char := ['。', '、', '？', '?', '！', '!']

/-- Whether a character belongs to the punctuation class. -/
def isPunct (c : Char) : Bool := punctChars.contains c

/-- JavaScript `sentence.split(/[。、？?！!]/)`: split the character list at
every punctuation character.  `split` on a string always returns at least
one (possibly empty) piece, and adjacent separators yield empty pieces. -/
def splitPunct : List Char → List (List Char)
  | [] => [[]]
  | c :: cs =>
    if isPunct c then
      [] :: splitPunct cs
    else
      match splitPunct cs with
      | [] => [[c]]
      | s :: rest => (c :: s) :: rest

/-- `parseSentence` from `App.tsx`:
`if (!sentence) return { segments: [], punctuations: [] };`
`const punctuations = sentence.match(/[。、？?！!]/g) || [];`
`const segments = sentence.split(/[。、？?！!]/).filter(p => p.length > 0);`
A global match of a one-character class returns exactly the matching
characters in order, i.e. a filter.  Result: `(segments, punctuations)`. -/
def parseSentence (s : List Char) : List (List Char) × List Char :=
  if s = [] then ([], [])
  else ((splitPunct s).filter (fun p => 0 < p.length), s.filter isPunct)

/-- `splitPunct` never returns the empty list (JavaScript `split` always
returns at least one piece). -/
theorem splitPunct_ne_nil (s : List Char) : splitPunct s ≠ [] := by
  cases s with
  | nil => simp [splitPunct]
  | cons c cs =>
    simp only [splitPunct]
    by_cases h : isPunct c
    · simp [h]
    · simp only [h, if_false]
      cases splitPunct cs <;> simp

/-- The number of pieces produced by `splitPunct` is the number of
punctuation characters plus one. -/
theorem splitPunct_length (s : List Char) :
    (splitPunct s).length = (s.filter isPunct).length + 1 := by
  induction s with
  | nil => simp [splitPunct]
  | cons c cs ih =>
    simp only [splitPunct]
    by_cases h : isPunct c
    · simp [h, List.filter_cons, ih]
    · simp only [h, if_false, List.filter_cons, Bool.false_eq_true, if_false]
      have hne := splitPunct_ne_nil cs
      cases hsp : splitPunct cs with
      | nil => exact absurd hsp hne
      | cons x xs =>
        have := ih
        rw [hsp] at this
        simpa using this

/-- On a sentence with no punctuation character, `splitPunct` returns the
sentence as its single piece. -/
theorem splitPunct_no_punct (s : List Char) (h : ∀ c ∈ s, isPunct c = false) :
    splitPunct s = [s] := by
  induction s with
  | nil => simp [splitPunct]
  | cons c cs ih =>
    have hc : isPunct c = false := h c (List.mem_cons_self c cs)
    have hcs : ∀ x ∈ cs, isPunct x = false := fun x hx => h x (List.mem_cons_of_mem c hx)
    simp only [splitPunct, hc, Bool.false_eq_true, if_false]
    rw [ih hcs]

/-- The character class of the JavaScript whitespace regex `\s` (which for
string purposes coincides with the set removed by `String.prototype.trim`):
tab through carriage return, space, NBSP, Ogham space mark, the U+2000
range, line/paragraph separator, narrow NBSP, medium mathematical space,
ideographic space and BOM. -/
def isJsWs (c : Char) : Bool :=
  let n := c.toNat
  (9 ≤ n && n ≤ 13) || n = 32 || n = 160 || n = 5760 ||
  (8192 ≤ n && n ≤ 8202) || n = 8232 || n = 8233 || n = 8239 ||
  n = 8287 || n = 12288 || n = 65279

/-- JavaScript `String.prototype.trim`: drop leading and trailing whitespace. -/
def trimJs (s : List Char) : List Char :=
  ((s.dropWhile isJsWs).reverse.dropWhile isJsWs).reverse

/-- JavaScript `.replace(/\s/g, '')`: remove every whitespace character. -/
def stripWs (s : List Char) : List Char := s.filter (fun c => !(isJsWs c))

/-- The normalisation `input.trim().replace(/\s/g, '')` applied to both
sides of the comparison in `checkAnswers`. -/
def normalize (s : List Char) : List Char := stripWs (trimJs s)

/-- The per-index comparison of `checkAnswers`:
`input.trim().replace(/\s/g, '') === segments[idx].trim().replace(/\s/g, '')`. -/
def segMatches (input seg : List Char) : Bool :=
  decide (normalize input = normalize seg)

/-- `userInputs.every((input, idx) => segMatches(input, segments[idx]))`,
for the equal-length case maintained by the app (the input-slot array is
created with exactly one slot per segment). -/
def isAllCorrect (inputs segs : List (List Char)) : Bool :=
  (inputs.zip segs).all fun p => segMatches p.1 p.2

/-- `new Array(segments.length).fill("")` from the input-initialisation
effect: one empty input slot per segment. -/
def initInputs (n : Nat) : List (List Char) := List.replicate n []

/-- A dialogue line from the static scenario data (`types.ts`). -/
structure Dialogue where
  speaker : String
  jp : List Char
  zh : String
deriving DecidableEq

/-- Placeholder dialogue used to model out-of-range indexing. -/
def defaultDialogue : Dialogue := { speaker := "", jp := [], zh := "" }

/-- The session state touched by `checkAnswers` and `showAnswerHint`:
current dialogue index, input slots, completed chat history, the queue of
`setTimeout`-scheduled dialogue-index updates not yet fired, and the
feedback text. -/
structure AppState where
  dialogueIdx : Nat
  userInputs : List (List Char)
  chatHistory : List Dialogue
  pendingAdvance : List Nat
  feedbackText : String
deriving DecidableEq

/-- The synchronous part of `checkAnswers` from `App.tsx`: validate the
inputs against the segments of the current dialogue; on success set the
success feedback, append the current dialogue to the chat history and,
when a next dialogue exists, schedule (via `setTimeout`) the index update
to the captured value `currentDialogueIdx + 1`; otherwise set the failure
feedback.  The dialogue index itself is not changed synchronously. -/
def checkAnswersStep (dialogues : List Dialogue) (st : AppState) : AppState :=
  let cur := dialogues.getD st.dialogueIdx defaultDialogue
  let segs := (parseSentence cur.jp).1
  if isAllCorrect st.userInputs segs then
    let nextIdx := st.dialogueIdx + 1
    if nextIdx < dialogues.length then
      { st with chatHistory := st.chatHistory ++ [cur],
                feedbackText := "完全正确！✨",
                pendingAdvance := st.pendingAdvance ++ [nextIdx] }
    else
      { st with chatHistory := st.chatHistory ++ [cur],
                feedbackText := "本章节练习完成！🎉" }
  else
    { st with feedbackText := "有些地方还没写对哦，加油！" }

/-- `showAnswerHint` from `App.tsx`: `setUserInputs([...segments])`. -/
def showAnswerHint (segs : List (List Char)) (st : AppState) : AppState :=
  { st with userInputs := segs }

/-- The outcome of the external `ai.models.generateContent` call as seen by
`getGrammarAnalysis`: either a response whose `text` field may be absent or
empty, or a thrown error. -/
inductive ApiResult where
  | success (text : Option String)
  | failure (err : String)

/-- `getGrammarAnalysis` from `services/gemini.ts`, with the external call
outcome passed as a parameter: `try { ...; return response.text ||`
`"暂时无法获取解析。"; } catch { return "解析失败，请检查网络或稍后重试。"; }`.
JavaScript `||` takes the fallback when `response.text` is absent or the
empty string. -/
def getGrammarAnalysis (jp zh : String) (result : ApiResult) : String :=
  match jp, zh, result with
  | _, _, .success t =>
    match t with
    | some s => if s = "" then "暂时无法获取解析。" else s
    | none => "暂时无法获取解析。"
  | _, _, .failure _ => "解析失败，请检查网络或稍后重试。"

/-- Reassemble a little-endian signed 16-bit integer from two bytes, as the
`Int16Array` view over the byte buffer does. -/
def toInt16 (lo hi : Nat) : Int :=
  let u := lo + 256 * hi
  if u < 32768 then (u : Int) else (u : Int) - 65536

/-- The samples of the `Int16Array` view of the byte buffer, in order.
(When the byte length is odd the view construction throws instead; the
decoder below guards that case.) -/
def bytesToSamples : List Nat → List Int
  | lo :: hi :: rest => toInt16 lo hi :: bytesToSamples rest
  | _ => []

/-- `decodeAudioData` from `services/gemini.ts`, with the produced
`AudioBuffer` modelled as its per-channel sample lists over ℚ:
`const dataInt16 = new Int16Array(data.buffer);` (throws a RangeError when
the byte length is odd, modelled as `none`);
`const frameCount = dataInt16.length / numChannels;` (the Web IDL
conversion of the length argument of `createBuffer` truncates to an
integer);
`ctx.createBuffer(numChannels, frameCount, sampleRate)` throws a
NotSupportedError when the truncated frame count is zero or the channel
count is outside 1 to 32 (modelled as `none`);
`channelData[i] = dataInt16[i * numChannels + channel] / 32768.0;`.
Division by the power of two 32768 is exact in binary floating point, so
the samples are modelled as exact rationals. -/
def decodeAudioData (data : List Nat) (numChannels : Nat) :
    Option (List (List ℚ)) :=
  if data.length % 2 ≠ 0 then none
  else
    let samples := bytesToSamples data
    let frameCount := samples.length / numChannels
    if numChannels = 0 ∨ 32 < numChannels ∨ frameCount = 0 then none
    else
      some ((List.range numChannels).map fun ch =>
        (List.range frameCount).map fun i =>
          ((samples.getD (i * numChannels + ch) 0 : Int) : ℚ) / 32768)

/-- Example dialogue list used as concrete input for the state-machine
theorems. -/
def exampleDialogues : List Dialogue :=
  [{ speaker := "A", jp := "はい".data, zh := "" },
   { speaker := "B", jp := "いいえ".data, zh := "" }]

/-- Example session state whose inputs match the current dialogue of
`exampleDialogues`. -/
def exampleState : AppState :=
  { dialogueIdx := 0, userInputs := ["はい".data], chatHistory := [],
    pendingAdvance := [], feedbackText := "" }

/-- For equal-length lists, the validator accepts exactly when the
normalised strings agree at every index. -/
theorem isAllCorrect_iff (inputs segs : List (List Char))
    (h : inputs.length = segs.length) :
    isAllCorrect inputs segs = true ↔
      ∀ i, i < inputs.length →
        normalize (inputs.getD i []) = normalize (segs.getD i []) := by
  induction inputs generalizing segs with
  | nil => simp [isAllCorrect]
  | cons x xs ih =>
    cases segs with
    | nil => simp at h
    | cons y ys =>
      have hlen : xs.length = ys.length := by simpa using h
      have hstep : isAllCorrect (x :: xs) (y :: ys)
          = (segMatches x y && isAllCorrect xs ys) := by
        simp [isAllCorrect]
      rw [hstep, Bool.and_eq_true, ih ys hlen]
      constructor
      · rintro ⟨h0, h1⟩ i hi
        cases i with
        | zero =>
          simpa [segMatches, decide_eq_true_eq] using h0
        | succ j =>
          simpa using h1 j (by simpa using hi)
      · intro hall
        refine ⟨?_, ?_⟩
        · have := hall 0 (by simp)
          simpa [segMatches, decide_eq_true_eq] using this
        · intro j hj
          simpa using hall (j + 1) (by simpa using hj)

/-- The validator is reflexive: a user-input list equal to the segment
list passes. -/
theorem isAllCorrect_self (l : List (List Char)) : isAllCorrect l l = true := by
  induction l with
  | nil => rfl
  | cons x xs ih =>
    have hstep : isAllCorrect (x :: xs) (x :: xs)
        = (segMatches x x && isAllCorrect xs xs) := by
      simp [isAllCorrect]
    rw [hstep, Bool.and_eq_true]
    exact ⟨by simp [segMatches], ih⟩

/-- The `Int16Array` view holds the byte count divided by two samples
(truncating a trailing odd byte, which the decoder never sees). -/
theorem bytesToSamples_length :
    ∀ data : List Nat, (bytesToSamples data).length = data.length / 2
  | [] => rfl
  | [_] => by simp [bytesToSamples]
  | lo :: hi :: rest => by
    have ih := bytesToSamples_length rest
    simp only [bytesToSamples, List.length_cons]
    omega

/-- A little-endian 16-bit reassembly of two bytes is a signed 16-bit
value. -/
theorem toInt16_bound (lo hi : Nat) (hlo : lo < 256) (hhi : hi < 256) :
    -32768 ≤ toInt16 lo hi ∧ toInt16 lo hi < 32768 := by
  simp only [toInt16]
  split <;> omega

/-- Every sample of the `Int16Array` view over genuine bytes is a signed
16-bit value. -/
theorem bytesToSamples_bound :
    ∀ data : List Nat, (∀ b ∈ data, b < 256) →
      ∀ x ∈ bytesToSamples data, -32768 ≤ x ∧ x < 32768
  | [], _, x, hx => by simp [bytesToSamples] at hx
  | [_], _, x, hx => by simp [bytesToSamples] at hx
  | lo :: hi :: rest, h, x, hx => by
    simp only [bytesToSamples, List.mem_cons] at hx
    rcases hx with rfl | hx
    · exact toInt16_bound lo hi (h lo (by simp)) (h hi (by simp))
    · exact bytesToSamples_bound rest (fun b hb => h b (by simp [hb])) x hx

/-- Reading a mapped range at an in-bounds index. -/
theorem getD_map_range {α : Type} (n i : Nat) (f : Nat → α) (d : α)
    (h : i < n) :
    ((List.range n).map f).getD i d = f i := by
  rw [List.getD_eq_getElem _ _ (by simpa using h)]
  simp

/-- Any sample read from a signed-16-bit list (with default 0) and divided
by 32768 lies in the half-open interval from -1 to 1. -/
theorem sample_div_bound (samples : List Int)
    (hs : ∀ x ∈ samples, -32768 ≤ x ∧ x < 32768) (j : Nat) :
    -1 ≤ ((samples.getD j 0 : Int) : ℚ) / 32768 ∧
      ((samples.getD j 0 : Int) : ℚ) / 32768 < 1 := by
  have hx : -32768 ≤ samples.getD j 0 ∧ samples.getD j 0 < 32768 := by
    by_cases hj : j < samples.length
    · rw [List.getD_eq_getElem _ _ hj]
      exact hs _ (List.getElem_mem hj)
    · have hlen : samples.length ≤ j := by omega
      have hz : samples.getD j 0 = 0 := by
        simp [List.getD_eq_getElem?_getD, List.getElem?_eq_none hlen]
      rw [hz]
      constructor <;> norm_num
  obtain ⟨h1, h2⟩ := hx
  have hq1 : (-32768 : ℚ) ≤ ((samples.getD j 0 : Int) : ℚ) := by
    exact_mod_cast h1
  have hq2 : ((samples.getD j 0 : Int) : ℚ) < 32768 := by
    exact_mod_cast h2
  constructor
  · rw [le_div_iff₀ (by norm_num : (0 : ℚ) < 32768)]
    linarith
  · rw [div_lt_one (by norm_num : (0 : ℚ) < 32768)]
    linarith

/-- C1: For every non-empty sentence, the segmenter splits on the fixed
punctuation set 。、？?！! and returns only the non-empty segments, while
the punctuation sequence contains every punctuation mark occurring in the
sentence, in original order; segmenting "おはよう。元気？" yields segments
["おはよう", "元気"] and punctuation ["。", "？"]. -/
theorem c1_segmenter_split (s : List Char) (h : s ≠ []) :
    (parseSentence s).1 = (splitPunct s).filter (fun p => 0 < p.length) ∧
    (∀ seg ∈ (parseSentence s).1, 0 < seg.length) ∧
    (parseSentence s).2 = s.filter isPunct ∧
    parseSentence ("おはよう。元気？".data)
      = (["おはよう".data, "元気".data], "。？".data) := by
  refine ⟨?_, ?_, ?_, by decide⟩
  · simp [parseSentence, h]
  · intro seg hseg
    simp only [parseSentence, h, if_false, List.mem_filter,
      decide_eq_true_eq] at hseg
    exact hseg.2
  · simp [parseSentence, h]

/-- Witness for C1 at the concrete sentence "おはよう。元気？". -/
theorem c1_segmenter_split_witness :
    (parseSentence ("おはよう。元気？".data)).2
      = ("おはよう。元気？".data).filter isPunct :=
  (c1_segmenter_split ("おはよう。元気？".data) (by decide)).2.2.1

/-- C2: For equal-length user-input and reference-segment lists, the
validator accepts exactly when at every index the input and the reference
segment agree after trimming and whitespace removal; "食べます" matches
"食べます " but not "食べません". -/
theorem c2_validator_iff (inputs segs : List (List Char))
    (h : inputs.length = segs.length) :
    (isAllCorrect inputs segs = true ↔
      ∀ i, i < inputs.length →
        normalize (inputs.getD i []) = normalize (segs.getD i [])) ∧
    segMatches ("食べます".data) ("食べます ".data) = true ∧
    segMatches ("食べます".data) ("食べません".data) = false :=
  ⟨isAllCorrect_iff inputs segs h, by decide, by decide⟩

/-- Witness for C2 at a concrete one-element pair of lists. -/
theorem c2_validator_iff_witness :
    isAllCorrect ["食べます".data] ["食べます ".data] = true :=
  ((c2_validator_iff ["食べます".data] ["食べます ".data] rfl).1).mpr (by decide)

/-- C3 counterexample: the sentence "。" has one punctuation mark but zero
segments, so the punctuation sequence can be strictly longer than the
segment list. -/
theorem c3_counterexample :
    ¬ ((parseSentence ("。".data)).2.length
        ≤ (parseSentence ("。".data)).1.length) := by decide

/-- C3 amended: for every sentence the number of segments is at most the
punctuation count plus one, and the input-slot array created for the
dialogue has exactly one entry per segment. -/
theorem c3_amended (s : List Char) :
    (parseSentence s).1.length ≤ (parseSentence s).2.length + 1 ∧
    (initInputs (parseSentence s).1.length).length
      = (parseSentence s).1.length := by
  constructor
  · by_cases h : s = []
    · subst h
      simp [parseSentence]
    · simp only [parseSentence, h, if_false]
      calc ((splitPunct s).filter fun p => 0 < p.length).length
          ≤ (splitPunct s).length := List.length_filter_le _ _
        _ = (s.filter isPunct).length + 1 := splitPunct_length s
  · simp [initInputs]

/-- C4 counterexample: the punctuation-free, non-empty sentence " あ" is
returned as the single segment " あ" unchanged, not trimmed, so the
segment differs from the trimmed sentence. -/
theorem c4_counterexample :
    ((" あ".data ≠ [] ∧ ∀ c ∈ " あ".data, isPunct c = false) ∧
      (parseSentence (" あ".data)).1 ≠ [trimJs (" あ".data)]) := by decide

/-- C4 amended: a non-empty sentence with no terminal punctuation is
returned as exactly one segment equal to the sentence itself (no
trimming) with an empty punctuation sequence, and the empty sentence
yields two empty sequences. -/
theorem c4_amended (s : List Char) (hne : s ≠ [])
    (hp : ∀ c ∈ s, isPunct c = false) :
    (parseSentence s).1 = [s] ∧ (parseSentence s).2 = [] ∧
    parseSentence [] = ([], []) := by
  refine ⟨?_, ?_, rfl⟩
  · simp only [parseSentence, hne, if_false]
    rw [splitPunct_no_punct s hp]
    simp [List.length_pos, hne]
  · simp only [parseSentence, hne, if_false]
    rw [List.filter_eq_nil_iff]
    intro a ha
    simp [hp a ha]

/-- Witness for C4 amended at the concrete sentence "あ". -/
theorem c4_amended_witness :
    (parseSentence ("あ".data)).1 = ["あ".data] ∧
    (parseSentence ("あ".data)).2 = [] ∧
    parseSentence [] = ([], []) :=
  c4_amended ("あ".data) (by decide) (by decide)

/-- C5: For every little-endian 16-bit signed PCM byte buffer and channel
count, the decoder produces, for each channel and frame, the sample value
divided by 32768, so every output sample lies in the half-open interval
from -1 to 1; the buffer [0x00, 0x40, 0x00, 0xC0] at 1 channel decodes to
the samples 1/2 and -1/2. -/
theorem c5_decode_normalization (data : List Nat) (nc : Nat)
    (out : List (List ℚ)) (hb : ∀ b ∈ data, b < 256) (hnc : 0 < nc)
    (hdec : decodeAudioData data nc = some out) :
    (∀ ch, ch < nc → ∀ i, i < (bytesToSamples data).length / nc →
      (out.getD ch []).getD i 0
        = (((bytesToSamples data).getD (i * nc + ch) 0 : Int) : ℚ) / 32768) ∧
    (∀ chd ∈ out, ∀ q ∈ chd, -1 ≤ q ∧ q < 1) ∧
    decodeAudioData [0x00, 0x40, 0x00, 0xC0] 1
      = some [[(1 : ℚ)/2, -(1 : ℚ)/2]] := by
  unfold decodeAudioData at hdec
  split at hdec
  · exact absurd hdec (by simp)
  · dsimp only at hdec
    split at hdec
    · exact absurd hdec (by simp)
    · have hout : out = (List.range nc).map (fun ch =>
          (List.range ((bytesToSamples data).length / nc)).map fun i =>
            (((bytesToSamples data).getD (i * nc + ch) 0 : Int) : ℚ) / 32768) :=
        (Option.some.inj hdec).symm
      subst hout
      refine ⟨?_, ?_, ?_⟩
      · intro ch hch i hi
        rw [getD_map_range nc ch _ _ hch, getD_map_range _ i _ _ hi]
      · intro chd hchd q hq
        obtain ⟨ch, _, rfl⟩ := List.mem_map.mp hchd
        obtain ⟨i, _, rfl⟩ := List.mem_map.mp hq
        exact sample_div_bound (bytesToSamples data)
          (bytesToSamples_bound data hb) (i * nc + ch)
      · simp only [decodeAudioData, bytesToSamples, toInt16]
        norm_num [List.range_succ, List.getD]

/-- Witness for C5 at the concrete buffer [0x00, 0x40, 0x00, 0xC0] with one
channel. -/
theorem c5_decode_normalization_witness :
    decodeAudioData [0x00, 0x40, 0x00, 0xC0] 1
      = some [[(1 : ℚ)/2, -(1 : ℚ)/2]] :=
  (c5_decode_normalization [0x00, 0x40, 0x00, 0xC0] 1
    [[(1 : ℚ)/2, -(1 : ℚ)/2]] (by decide) (by decide)
    (by simp only [decodeAudioData, bytesToSamples, toInt16]
        norm_num [List.range_succ, List.getD])).2.2

/-- C6: the decoded buffer has one sample list per channel, and each has
exactly (total 16-bit sample count) / (channel count) frames, the division
being truncating integer division. -/
theorem c6_frame_count (data : List Nat) (nc : Nat) (out : List (List ℚ))
    (hnc : 0 < nc) (hdec : decodeAudioData data nc = some out) :
    out.length = nc ∧ ∀ chd ∈ out, chd.length = (data.length / 2) / nc := by
  unfold decodeAudioData at hdec
  split at hdec
  · exact absurd hdec (by simp)
  · dsimp only at hdec
    split at hdec
    · exact absurd hdec (by simp)
    · have hout : out = (List.range nc).map (fun ch =>
          (List.range ((bytesToSamples data).length / nc)).map fun i =>
            (((bytesToSamples data).getD (i * nc + ch) 0 : Int) : ℚ) / 32768) :=
        (Option.some.inj hdec).symm
      subst hout
      constructor
      · simp
      · intro chd hchd
        obtain ⟨ch, _, rfl⟩ := List.mem_map.mp hchd
        simp [bytesToSamples_length]

/-- Witness for C6 at a six-byte buffer with two channels: three samples
truncate to one frame per channel. -/
theorem c6_frame_count_witness :
    [[(1 : ℚ)/2], [-(1 : ℚ)/2]].length = 2 :=
  (c6_frame_count [0x00, 0x40, 0x00, 0xC0, 0x01, 0x00] 2
    [[(1 : ℚ)/2], [-(1 : ℚ)/2]] (by decide)
    (by simp only [decodeAudioData, bytesToSamples, toInt16]
        norm_num [List.range_succ, List.getD])).1

/-- C7: getGrammarAnalysis never propagates an error: a thrown error from
the external call yields one fixed fallback string, an absent or empty
response text yields the other fixed fallback string, and a non-empty
response text is returned as is. -/
theorem c7_grammar_fallback (jp zh err t : String) (ht : t ≠ "") :
    getGrammarAnalysis jp zh (.failure err) = "解析失败，请检查网络或稍后重试。" ∧
    getGrammarAnalysis jp zh (.success none) = "暂时无法获取解析。" ∧
    getGrammarAnalysis jp zh (.success (some "")) = "暂时无法获取解析。" ∧
    getGrammarAnalysis jp zh (.success (some t)) = t := by
  refine ⟨rfl, rfl, rfl, ?_⟩
  simp [getGrammarAnalysis, ht]

/-- Witness for C7 at concrete texts and a concrete non-empty response. -/
theorem c7_grammar_fallback_witness :
    getGrammarAnalysis "こんにちは" "你好" (.failure "network")
      = "解析失败，请检查网络或稍后重试。" :=
  (c7_grammar_fallback "こんにちは" "你好" "network" "ok" (by decide)).1

/-- C8 counterexample: two consecutive answer checks with identical
all-correct inputs, with the dialogue index unchanged in between (the
scheduled advance has not fired), append two entries to the chat history,
not at most one. -/
theorem c8_counterexample :
    (checkAnswersStep exampleDialogues exampleState).dialogueIdx
      = exampleState.dialogueIdx ∧
    ¬ ((checkAnswersStep exampleDialogues
          (checkAnswersStep exampleDialogues exampleState)).chatHistory.length
        ≤ exampleState.chatHistory.length + 1) := by decide

/-- C8 amended: each invocation of the answer check with all-correct
inputs appends exactly one entry (the current dialogue) to the chat
history and leaves the dialogue index unchanged synchronously; the append
is per invocation, not gated by an index change. -/
theorem c8_amended (dialogues : List Dialogue) (st : AppState)
    (h : isAllCorrect st.userInputs
        (parseSentence (dialogues.getD st.dialogueIdx defaultDialogue).jp).1
      = true) :
    (checkAnswersStep dialogues st).chatHistory
      = st.chatHistory ++ [dialogues.getD st.dialogueIdx defaultDialogue] ∧
    (checkAnswersStep dialogues st).dialogueIdx = st.dialogueIdx := by
  simp only [checkAnswersStep, h, if_true]
  split <;> simp

/-- Witness for C8 amended at the concrete example state. -/
theorem c8_amended_witness :
    (checkAnswersStep exampleDialogues exampleState).chatHistory
      = exampleState.chatHistory
          ++ [exampleDialogues.getD exampleState.dialogueIdx defaultDialogue] ∧
    (checkAnswersStep exampleDialogues exampleState).dialogueIdx
      = exampleState.dialogueIdx :=
  c8_amended exampleDialogues exampleState (by decide)

/-- C9: filling every input slot from the reference segments via the
answer hint and then checking always validates: the per-index comparison
is reflexive, so the check takes the all-correct branch and appends the
current dialogue. -/
theorem c9_hint_then_check (dialogues : List Dialogue) (st : AppState) :
    isAllCorrect
      (showAnswerHint
        (parseSentence (dialogues.getD st.dialogueIdx defaultDialogue).jp).1
        st).userInputs
      (parseSentence (dialogues.getD st.dialogueIdx defaultDialogue).jp).1
      = true ∧
    (checkAnswersStep dialogues
        (showAnswerHint
          (parseSentence (dialogues.getD st.dialogueIdx defaultDialogue).jp).1
          st)).chatHistory
      = st.chatHistory ++ [dialogues.getD st.dialogueIdx defaultDialogue] := by
  refine ⟨isAllCorrect_self _, ?_⟩
  simp only [checkAnswersStep, showAnswerHint, isAllCorrect_self, if_true]
  split <;> simp

/-- C10 counterexample: even byte length does not make the error branch
unreachable: the even two-byte buffer [0x00, 0x40] at 2 channels truncates
to a frame count of 0, on which `createBuffer` throws, so the decoder
still fails. -/
theorem c10_counterexample :
    ¬ ((decodeAudioData [0x00, 0x40] 2).isSome = true
        ↔ [0x00, 0x40].length % 2 = 0) := by decide

/-- C10 amended: an odd byte length always fails (the 16-bit
reinterpretation of the buffer raises a range error), and the decoder
succeeds exactly when the byte length is even, the channel count lies
between 1 and 32, and the truncated frame count is positive (otherwise
`createBuffer` throws a NotSupportedError). -/
theorem c10_amended (data : List Nat) (nc : Nat) :
    (decodeAudioData data nc).isSome = true ↔
      (data.length % 2 = 0 ∧ 1 ≤ nc ∧ nc ≤ 32 ∧
        0 < (data.length / 2) / nc) := by
  unfold decodeAudioData
  split <;> rename_i h1
  · simp only [Option.isSome_none, Bool.false_eq_true, false_iff]
    intro hc
    exact h1 hc.1
  · dsimp only
    rw [bytesToSamples_length]
    split <;> rename_i h2
    · simp only [Option.isSome_none, Bool.false_eq_true, false_iff]
      intro hc
      rcases h2 with h | h | h
      · omega
      · omega
      · rw [h] at hc
        exact absurd hc.2.2.2 (lt_irrefl 0)
    · simp only [Option.isSome_some, true_iff]
      push_neg at h2
      exact ⟨by omega, Nat.one_le_iff_ne_zero.mpr h2.1,
        h2.2.1, Nat.pos_of_ne_zero h2.2.2⟩

end Nihongo
